import Mathlib

/-!
TS3AudioBob: command argument parsing and the packet-to-frame decoder.

Shallow embedding of

* `src/commands/Command.hpp`: `CommandSystem::parseArgument<T>` and the three
  `Command::execute` overloads;
* `src/Audio/PacketToFrameDecoder.hpp`: the decoder state declared there, with
  `fillFrame` / `getLastQueueId` following the algorithm of the specification
  (the member functions are only declared in the header).

A `std::string` is a `List Char`.
-/

namespace CommandSystem

/-- The classic-locale `std::isspace`: space, `\t`, `\n`, `\v`, `\f`, `\r`. -/
def isspace (c : Char) : Bool :=
  c.toNat = 32 || c.toNat = 9 || c.toNat = 10 || c.toNat = 11 || c.toNat = 12 || c.toNat = 13

/-- The classic-locale `std::isdigit`. -/
def isdigit (c : Char) : Bool :=
  decide (48 ≤ c.toNat) && decide (c.toNat ≤ 57)

/-- Observable outcome of one formatted extraction `input >> *result` on a fresh
`std::istringstream`:
* `stored`: what the extraction wrote into `*result`, if it wrote anything;
* `fail`: `failbit` is set, i.e. no value of the requested type was produced;
* `eof`: `eofbit` is set, i.e. the extraction tried to read past the last character;
* `pos`: number of characters taken from the stream. -/
structure Extraction (T : Type) where
  stored : Option T
  fail : Bool
  eof : Bool
  pos : Nat
deriving Repr, DecidableEq

/-- Value of a run of decimal digits. -/
def digitsValue (ds : List Char) : Nat :=
  ds.foldl (fun acc c => 10 * acc + (c.toNat - 48)) 0

/-- Largest `int` (32 bit). -/
def INT_MAX : Int := 2147483647

/-- Smallest `int` (32 bit). -/
def INT_MIN : Int := -2147483648

/-- The standard library's `operator>>(std::istream&, int&)` on a stream with default
flags (`skipws`, `dec`), C++11 rules: leading white space is skipped; if the input ends
there `eofbit | failbit` is set and nothing is stored.  Otherwise an optional sign and a
run of decimal digits are read; reading stops at the first other character, or at the end
of the input, which sets `eofbit`.  No digit: `failbit`, `0` is stored.  Out of range:
`failbit`, the nearest bound is stored. -/
def extractInt (message : List Char) : Extraction Int :=
  let ws := message.takeWhile isspace
  match message.dropWhile isspace with
  | [] => ⟨none, true, true, message.length⟩
  | c :: rest =>
    let signed : Bool := c.toNat = 45 || c.toNat = 43
    let neg : Bool := c.toNat = 45
    let body := if signed then rest else c :: rest
    let ds := body.takeWhile isdigit
    let eof := (body.dropWhile isdigit).isEmpty
    let pos := ws.length + (if signed then 1 else 0) + ds.length
    if ds.isEmpty then ⟨some 0, true, eof, pos⟩
    else
      let v : Int := if neg then -(digitsValue ds : Int) else (digitsValue ds : Int)
      if v < INT_MIN then ⟨some INT_MIN, true, eof, pos⟩
      else if INT_MAX < v then ⟨some INT_MAX, true, eof, pos⟩
      else ⟨some v, false, eof, pos⟩

/-- The standard library's `operator>>(std::istream&, std::string&)`: leading white space
is skipped; if the input ends there `eofbit | failbit` is set and nothing is stored.
Otherwise the characters up to the next white space (or the end of the input, which sets
`eofbit`) are stored. -/
def extractString (message : List Char) : Extraction (List Char) :=
  let ws := message.takeWhile isspace
  match message.dropWhile isspace with
  | [] => ⟨none, true, true, message.length⟩
  | c :: rest =>
    let word := (c :: rest).takeWhile (fun x => !isspace x)
    let eof := ((c :: rest).dropWhile (fun x => !isspace x)).isEmpty
    ⟨some word, false, eof, ws.length + word.length⟩

/-- What `parseArgument` leaves behind: the returned `bool`, the `message` reference
parameter and the object behind `result`. -/
structure ParseOutcome (T : Type) where
  ret : Bool
  message : List Char
  result : T
deriving Repr, DecidableEq

/-- The function `CommandSystem::parseArgument<T>` (Command.hpp 43-56); `extract` is `operator>>` for
`T`, `result` is the content of `*result` on entry.
```
std::istringstream input(message);
input >> *result;
if (input.eof())      message.clear();
else if (!input)      return false;
else                  message.erase(message.begin(), message.begin() + input.tellg());
return true;
``` -/
def parseArgument {T : Type} (extract : List Char → Extraction T)
    (message : List Char) (result : T) : ParseOutcome T :=
  let input := extract message
  let result' := input.stored.getD result
  if input.eof then ⟨true, [], result'⟩
  else if input.fail then ⟨false, message, result'⟩
  else ⟨true, message.drop input.pos, result'⟩

end CommandSystem

namespace Utils

/-- Modelled from the spec: `Utils::strip(str, left, right)` comes from `Utils.hpp`, which
is not among the sources.  It removes white space at the left end when `left` is set and
at the right end when `right` is set (Command.hpp calls it as `strip(message, true, false)`
to drop the white space in front of the next argument). -/
def strip (str : List Char) (left right : Bool) : List Char :=
  let s := if left then str.dropWhile CommandSystem.isspace else str
  if right then (s.reverse.dropWhile CommandSystem.isspace).reverse else s

end Utils

/-- Result codes of `CommandResult` (declared in `AbstractCommand.hpp`); Command.hpp uses
`TRY_NEXT` and `ERROR`. -/
inductive CommandResult.Result where
  | SUCCESS
  | ERROR
  | TRY_NEXT
deriving Repr, DecidableEq

/-- The class `CommandResult`, built by `CommandResult(result, errorMessage)`. -/
structure CommandResult where
  result : CommandResult.Result
  errorMessage : String
deriving Repr, DecidableEq

namespace Command

/-- Parameter types a command callback can take (`class... Args`). -/
inductive ParamTy where
  | int
  | string
deriving Repr, DecidableEq

/-- The C++ type behind a parameter type. -/
def ParamTy.denote : ParamTy → Type
  | .int => Int
  | .string => List Char

/-- The `operator>>` selected for `P` by `parseArgument<P>`. -/
def ParamTy.extract : (p : ParamTy) → List Char → CommandSystem.Extraction p.denote
  | .int => CommandSystem.extractInt
  | .string => CommandSystem.extractString

/-- The object `P p;` before parsing: a `std::string` is empty, an `int` holds an
indeterminate value `indet`. -/
def ParamTy.declared (indet : Int) : (p : ParamTy) → p.denote
  | .int => indet
  | .string => []

/-- Callback `std::function<CommandResult(Params...)>`. -/
def Callback : List ParamTy → Type
  | [] => CommandResult
  | p :: ps => p.denote → Callback ps

/-- The three overloads of `Command::execute` (Command.hpp 109-143), selected by the
callback's parameter list as overload resolution does: no parameter left, a single
`std::string` left (the non-template overload wins over the template), anything else.
`Utils::myBind(f, p)` is application of `f` to `p`. -/
def execute (indet : Int) : (ps : List ParamTy) → List Char → Callback ps → CommandResult
  | [], message, f =>
    if !message.isEmpty then ⟨.TRY_NEXT, "error too many parameters"⟩
    else f
  | [.string], message, f => f (Utils.strip message true false)
  | p :: ps, message, f =>
    if message.isEmpty then ⟨.TRY_NEXT, "error too few parameters"⟩
    else
      let r := CommandSystem.parseArgument p.extract (Utils.strip message true false)
        (p.declared indet)
      if !r.ret then ⟨.ERROR, "error wrong parameter type"⟩
      else execute indet ps r.message (f r.result)

end Command

namespace audio

/-- The value `AV_NOPTS_VALUE` of libavutil, `INT64_MIN`. -/
def AV_NOPTS_VALUE : Int := -9223372036854775808

/-- The rational `AVRational` of libavutil: a time unit `num / den`. -/
structure AVRational where
  num : Int
  den : Int
deriving Repr, DecidableEq

/-- Modelled from the spec: the Packet of section 3, as far as the decoder reads it (the
type `AVPacket` belongs to libavcodec): the byte buffer, the presentation timestamp with
its time unit, and the queue identifier.  In `tmpPacket` the field `data` is the
Consumption Cursor: the bytes of `currentPacket` not consumed yet. -/
structure AVPacket where
  data : List Nat
  pts : Int
  timeBase : AVRational
  queueId : Int
deriving Repr, DecidableEq

/-- Modelled from the spec: one entry of the Packet Source.  Following section 9 the
source holds a tagged union, a real packet or a flush marker; the closure of the source
is the end of the list of entries. -/
inductive QueueEntry where
  | audio (packet : AVPacket)
  | flush
deriving Repr, DecidableEq

/-- Modelled from the spec: the frame handed back to the Playback Driver, reduced to the
fields the decoder sets or reports: the assigned timestamp and the sample count. -/
structure AVFrame where
  pts : Int
  nbSamples : Nat
deriving Repr, DecidableEq

/-- Modelled from the spec: the answer of the Decode Engine to "receive one decoded unit"
(section 6): it needs more input, the input was corrupt, or it decoded one unit, having
consumed `consumed` bytes, reporting the timestamp `pts`, `samples` samples and a frame
of `size` bytes. -/
inductive DecodeResult where
  | needMoreInput
  | corrupt
  | decoded (consumed : Nat) (pts : Int) (samples : Nat) (size : Nat)
deriving Repr, DecidableEq

/-- Modelled from the spec: the Decode Engine (libavcodec behind `codecContext`), an
external stateful codec with state `σ`: `flush` discards its buffered state, `decode`
takes the unconsumed bytes of the cursor (no byte: "drain what is buffered") and answers
with a `DecodeResult`. -/
structure DecodeEngine (σ : Type) where
  flush : σ → σ
  decode : σ → List Nat → σ × DecodeResult

/-- Modelled from the spec: the arithmetic of step 6 of `fillFrame`, which section 9 leaves
open ("implementers must choose a precise rescale").  `rebase` turns the timestamp the
engine reports into the timestamp of the frame, from the packet's time unit and the
running pair; `advance` converts a sample count into the running time unit. -/
structure TimestampRule where
  rebase : (enginePts : Int) → (packetBase : AVRational) →
    (nextPlayTime : Int) → (nextPlayTimeBase : AVRational) → Int
  advance : (samples : Nat) → (nextPlayTimeBase : AVRational) → Nat

/-- The data members of `class PacketToFrameDecoder` (PacketToFrameDecoder.hpp 25-39).
`player` and `codecContext` are the Packet Source and the Decode Engine, kept in
`Config`. -/
structure PacketToFrameDecoder where
  hasPackets : Bool
  currentPacket : AVPacket
  tmpPacket : AVPacket
  initialPlayTime : Int
  initialPlayTimeBase : AVRational
  nextPlayTime : Int
  nextPlayTimeBase : AVRational
  lastQueueId : Int
deriving Repr, DecidableEq

/-- The decoder together with what it is bound to: the entries the Packet Source will
deliver before it is closed, and the state of the Decode Engine. -/
structure Config (σ : Type) where
  decoder : PacketToFrameDecoder
  queue : List QueueEntry
  codec : σ
deriving Repr, DecidableEq

/-- What `fillFrame` hands back: the size of the frame written, or the end-of-stream
sentinel. -/
inductive FillResult where
  | frame (size : Nat) (frame : AVFrame)
  | endOfStream
deriving Repr, DecidableEq

/-- Outcome of steps 1 to 3 of the loop. -/
inductive Pulled (σ : Type) where
  | closed
  | flushed (c : Config σ)
  | holding (c : Config σ)

/-- Outcome of one iteration of the loop: go round again, or return. -/
inductive Step (σ : Type) where
  | loop (c : Config σ)
  | ret (r : FillResult) (c : Config σ)

/-- The configuration an iteration leaves behind. -/
def Step.config {σ : Type} : Step σ → Config σ
  | .loop c => c
  | .ret _ c => c

/-- Modelled from the spec: steps 1 to 3 of `fillFrame` (section 4.1; the body of
`fillFrame` is in PacketToFrameDecoder.cpp, which is not among the sources).  With a
packet held nothing is pulled.  Otherwise the next entry of the source is taken: the
closed source ends the call; a flush marker flushes the engine, resets the running pair to
the initial pair and leaves no packet held; a real packet has its queue identifier
recorded, becomes the held packet and the cursor is set to its full range. -/
def pull {σ : Type} (e : DecodeEngine σ) (c : Config σ) : Pulled σ :=
  if c.decoder.hasPackets then .holding c
  else
    match c.queue with
    | [] => .closed
    | .flush :: rest =>
      .flushed { decoder := { c.decoder with
                              nextPlayTime := c.decoder.initialPlayTime
                              nextPlayTimeBase := c.decoder.initialPlayTimeBase
                              hasPackets := false }
                 queue := rest
                 codec := e.flush c.codec }
    | .audio p :: rest =>
      .holding { decoder := { c.decoder with
                              lastQueueId := p.queueId
                              currentPacket := p
                              tmpPacket := p
                              hasPackets := true }
                 queue := rest
                 codec := c.codec }

/-- Modelled from the spec: steps 4 to 6 of `fillFrame` (section 4.1).  The unconsumed
bytes of the cursor go to the engine.  "Need more input" and a corrupt unit clear
`hasPackets` and go round again.  A decoded unit narrows the cursor by the bytes
consumed, stamps the frame with the rebased timestamp, advances `nextPlayTime` by the
samples produced and returns the size. -/
def decodeStep {σ : Type} (e : DecodeEngine σ) (rule : TimestampRule) (c : Config σ) :
    Step σ :=
  match e.decode c.codec c.decoder.tmpPacket.data with
  | (s, .needMoreInput) =>
    .loop { c with codec := s, decoder := { c.decoder with hasPackets := false } }
  | (s, .corrupt) =>
    .loop { c with codec := s, decoder := { c.decoder with hasPackets := false } }
  | (s, .decoded consumed pts samples size) =>
    let d := c.decoder
    let stamp := rule.rebase pts d.currentPacket.timeBase d.nextPlayTime d.nextPlayTimeBase
    .ret (.frame size ⟨stamp, samples⟩)
      { c with
        codec := s
        decoder := { d with
                     tmpPacket := { d.tmpPacket with data := d.tmpPacket.data.drop consumed }
                     nextPlayTime := d.nextPlayTime + rule.advance samples d.nextPlayTimeBase } }

/-- Modelled from the spec: one iteration of the loop of `fillFrame` (section 4.1). -/
def iteration {σ : Type} (e : DecodeEngine σ) (rule : TimestampRule) (c : Config σ) :
    Step σ :=
  match pull e c with
  | .closed => .ret .endOfStream c
  | .flushed c' => .loop c'
  | .holding c' => decodeStep e rule c'

/-- Number of iterations the loop can still go round: two for every entry left in the
source, one more while a packet is held. -/
def budget {σ : Type} (c : Config σ) : Nat :=
  2 * c.queue.length + (if c.decoder.hasPackets then 1 else 0)

/-- The loop of `fillFrame`, cut off after `fuel` iterations. -/
def fillFrameLoop {σ : Type} (e : DecodeEngine σ) (rule : TimestampRule) :
    Nat → Config σ → Option (FillResult × Config σ)
  | 0, _ => none
  | fuel + 1, c =>
    match iteration e rule c with
    | .ret r c' => some (r, c')
    | .loop c' => fillFrameLoop e rule fuel c'

/-- Modelled from the spec: `PacketToFrameDecoder::fillFrame` (section 4.1), the loop run on
the entries the source delivers until it is closed.  Waiting for an entry that has not
arrived yet is not represented: the queue lists what will arrive.  Two iterations for
every entry and two more are enough for the loop to return. -/
def fillFrame {σ : Type} (e : DecodeEngine σ) (rule : TimestampRule) (c : Config σ) :
    Option (FillResult × Config σ) :=
  fillFrameLoop e rule (2 * c.queue.length + 2) c

/-- The member `PacketToFrameDecoder::getLastQueueId() const`: "The queue id of the last packet". -/
def getLastQueueId (d : PacketToFrameDecoder) : Int :=
  d.lastQueueId

/-- The state after `n` iterations of the loop, over as many calls of `fillFrame` as they
take (an iteration that returns is followed by the first iteration of the next call). -/
def afterIterations {σ : Type} (e : DecodeEngine σ) (rule : TimestampRule) :
    Nat → Config σ → Config σ
  | 0, c => c
  | n + 1, c => afterIterations e rule n (iteration e rule c).config

/-- The state after `n` calls of `fillFrame` (a call that does not return leaves the
state as it is). -/
def afterCalls {σ : Type} (e : DecodeEngine σ) (rule : TimestampRule) :
    Nat → Config σ → Config σ
  | 0, c => c
  | n + 1, c =>
    match fillFrame e rule c with
    | some (_, c') => afterCalls e rule n c'
    | none => c

/-- The queue identifier of the last real packet among `pulled`, `id` if there is none. -/
def lastPulledId (id : Int) : List QueueEntry → Int
  | [] => id
  | .audio p :: rest => lastPulledId p.queueId rest
  | .flush :: rest => lastPulledId id rest

/-- The recorded queue identifier follows the source between `c` and `c1`: some entries
`pulled` were taken from the front of the source of `c`, and the identifier in `c1` is
that of the last real packet among them (the identifier of `c` if there is none). -/
def Tracks {σ : Type} (c c1 : Config σ) : Prop :=
  ∃ pulled, c.queue = pulled ++ c1.queue ∧
    getLastQueueId c1.decoder = lastPulledId (getLastQueueId c.decoder) pulled

/-- A deterministic engine without state for the examples: no byte gives "need more
input", a packet starting with byte `0` is corrupt, any other packet is consumed whole
and gives one unit of 1024 samples (4096 bytes) whose timestamp is its first byte. -/
def sampleEngine : DecodeEngine Unit where
  flush := fun s => s
  decode := fun s bytes =>
    match bytes with
    | [] => (s, .needMoreInput)
    | 0 :: _ => (s, .corrupt)
    | b :: rest => (s, .decoded (b :: rest).length b 1024 4096)

/-- A timestamp rule for the examples: the frame gets the running timestamp, one sample
is one unit of time. -/
def sampleRule : TimestampRule where
  rebase := fun _ _ nextPlayTime _ => nextPlayTime
  advance := fun samples _ => samples

/-- Another timestamp rule for the examples: the frame gets the timestamp the engine
reports, unchanged (all time units of the examples are equal). -/
def engineRule : TimestampRule where
  rebase := fun enginePts _ _ _ => enginePts
  advance := fun samples _ => samples

/-- A real packet for the examples. -/
def samplePacket (queueId : Int) (firstByte : Nat) : AVPacket :=
  { data := [firstByte, 1], pts := 0, timeBase := ⟨1, 48000⟩, queueId := queueId }

/-- A freshly constructed decoder for the examples. -/
def sampleDecoder : PacketToFrameDecoder :=
  { hasPackets := false
    currentPacket := samplePacket 0 1
    tmpPacket := samplePacket 0 1
    initialPlayTime := 0
    initialPlayTimeBase := ⟨1, 48000⟩
    nextPlayTime := 0
    nextPlayTimeBase := ⟨1, 48000⟩
    lastQueueId := 0 }

/-- The decoder of the examples in front of a source that delivers `queue`. -/
def sampleConfig (queue : List QueueEntry) : Config Unit :=
  { decoder := sampleDecoder, queue := queue, codec := () }

end audio

namespace CommandSystem

theorem length_takeWhile_add_dropWhile {α : Type} (p : α → Bool) (l : List α) :
    (l.takeWhile p).length + (l.dropWhile p).length = l.length := by
  rw [← List.length_append, List.takeWhile_append_dropWhile]

theorem length_takeWhile_of_dropWhile_nil {α : Type} (p : α → Bool) (l : List α)
    (h : (l.dropWhile p).isEmpty = true) : (l.takeWhile p).length = l.length := by
  have h1 := length_takeWhile_add_dropWhile p l
  rw [List.isEmpty_iff] at h
  rw [h] at h1
  simpa using h1

/-- Flags and position of `extractInt` once a non-blank character was found. -/
theorem extractInt_cons (message : List Char) (c : Char) (rest : List Char)
    (hd : message.dropWhile isspace = c :: rest) :
    (extractInt message).eof
        = ((if (decide (c.toNat = 45) || decide (c.toNat = 43)) then rest
            else c :: rest).dropWhile isdigit).isEmpty ∧
    (extractInt message).pos
        = (message.takeWhile isspace).length
          + (if (decide (c.toNat = 45) || decide (c.toNat = 43)) then 1 else 0)
          + ((if (decide (c.toNat = 45) || decide (c.toNat = 43)) then rest
              else c :: rest).takeWhile isdigit).length := by
  unfold extractInt
  simp only [hd]
  constructor <;> split_ifs <;> rfl

theorem extractInt_eof_pos (message : List Char) (h : (extractInt message).eof = true) :
    (extractInt message).pos = message.length := by
  have hlen := length_takeWhile_add_dropWhile isspace message
  cases hd : message.dropWhile isspace with
  | nil => unfold extractInt; simp only [hd]
  | cons c rest =>
    obtain ⟨he, hp⟩ := extractInt_cons message c rest hd
    rw [he] at h
    rw [hp]
    rw [hd] at hlen
    have := length_takeWhile_of_dropWhile_nil isdigit _ h
    rw [this]
    simp only [List.length_cons] at hlen
    split_ifs <;> (try simp only [List.length_cons]) <;> omega

theorem extractString_eof_pos (message : List Char)
    (h : (extractString message).eof = true) :
    (extractString message).pos = message.length := by
  have hlen := length_takeWhile_add_dropWhile isspace message
  unfold extractString at h ⊢
  cases hd : message.dropWhile isspace with
  | nil => simp only [hd]
  | cons c rest =>
    simp only [hd] at h ⊢
    rw [hd] at hlen
    have := length_takeWhile_of_dropWhile_nil _ _ h
    rw [this]
    exact hlen

/-- The value returned by `parseArgument`, in terms of the stream state. -/
theorem parseArgument_ret {T : Type} (extract : List Char → Extraction T)
    (message : List Char) (result : T) :
    (parseArgument extract message result).ret
      = ((extract message).eof || !(extract message).fail) := by
  unfold parseArgument
  cases he : (extract message).eof <;> cases hf : (extract message).fail <;> simp [he, hf]

/-- The message left by `parseArgument`, in terms of the stream state. -/
theorem parseArgument_message {T : Type} (extract : List Char → Extraction T)
    (message : List Char) (result : T) :
    (parseArgument extract message result).message
      = if (extract message).eof then []
        else if (extract message).fail then message
        else message.drop (extract message).pos := by
  unfold parseArgument
  cases he : (extract message).eof <;> cases hf : (extract message).fail <;> simp [he, hf]

/-- Both extractions have consumed the whole message when `eofbit` is set. -/
theorem extract_eof_pos (p : Command.ParamTy) (message : List Char)
    (h : (p.extract message).eof = true) : (p.extract message).pos = message.length := by
  cases p
  · exact extractInt_eof_pos message h
  · exact extractString_eof_pos message h

/-- C5, evaluated on the code: for the empty message, a blank message and the message `-`
the extraction of an `int` sets `failbit` (no value is produced), and `parseArgument<int>`
returns `true` all the same, because `eofbit` is tested first.  On the empty message
`*result` still holds what it held before the call. -/
theorem parseArgument_true_on_failed_extraction :
    ((extractInt []).fail = true ∧ (parseArgument extractInt [] 7).ret = true
        ∧ (parseArgument extractInt [] 7).result = 7) ∧
    ((extractInt [' ', ' ']).fail = true ∧ (parseArgument extractInt [' ', ' '] 7).ret = true
        ∧ (parseArgument extractInt [' ', ' '] 7).result = 7) ∧
    ((extractInt ['-']).fail = true ∧ (parseArgument extractInt ['-'] 7).ret = true) ∧
    ((extractString []).fail = true ∧ (parseArgument extractString [] ['x']).ret = true) := by
  decide

/-- C7: when `parseArgument<T>` returns `true` (`T` being `int` or `std::string`), the new
message is the old one without the characters the extraction consumed; it is a suffix of
the old message, not longer than it, and empty when the extraction read up to the end of
the message. -/
theorem parseArgument_leftover (p : Command.ParamTy) (message : List Char)
    (result : p.denote) (h : (parseArgument p.extract message result).ret = true) :
    (parseArgument p.extract message result).message
        = message.drop (p.extract message).pos ∧
    (parseArgument p.extract message result).message <:+ message ∧
    (parseArgument p.extract message result).message.length ≤ message.length ∧
    ((p.extract message).eof = true →
        (parseArgument p.extract message result).message = []) ∧
    ((p.extract message).pos = message.length →
        (parseArgument p.extract message result).message = []) := by
  have hm := parseArgument_message p.extract message result
  have hr := parseArgument_ret p.extract message result
  have hdrop : (parseArgument p.extract message result).message
      = message.drop (p.extract message).pos := by
    rw [hm]
    cases he : (p.extract message).eof with
    | true =>
      rw [extract_eof_pos p message he]
      simp
    | false =>
      rw [hr, he] at h
      cases hf : (p.extract message).fail with
      | true => rw [hf] at h; simp at h
      | false => simp
  refine ⟨hdrop, ?_, ?_, ?_, ?_⟩
  · rw [hdrop]; exact List.drop_suffix _ _
  · rw [hdrop, List.length_drop]; omega
  · intro he
    rw [hm, he]; simp
  · intro hp
    rw [hdrop, hp]; simp

/-- C7 at the message `12 34` parsed as an `int`: the call succeeds and leaves ` 34`. -/
theorem parseArgument_leftover_witness :
    (parseArgument Command.ParamTy.int.extract ['1', '2', ' ', '3', '4'] (0 : Int)).ret = true ∧
    (parseArgument Command.ParamTy.int.extract ['1', '2', ' ', '3', '4'] (0 : Int)).message
        = [' ', '3', '4'] :=
  ⟨by decide,
   (parseArgument_leftover Command.ParamTy.int ['1', '2', ' ', '3', '4'] (0 : Int) (by decide)).1.trans
     (by decide)⟩

end CommandSystem

namespace Command

/-- C6: with a callback taking a single `std::string`, `execute` hands the whole message,
stripped of its leading white space only, to the callback and returns the callback's
answer: the text is neither tested for emptiness nor split. -/
theorem execute_string_is_rest (indet : Int) (message : List Char)
    (f : List Char → CommandResult) :
    execute indet [ParamTy.string] message f = f (Utils.strip message true false) ∧
    Utils.strip message true false = message.dropWhile CommandSystem.isspace ∧
    execute indet [ParamTy.string] [] f = f [] := by
  refine ⟨rfl, ?_, rfl⟩
  simp [Utils.strip]

/-- The same callback shape with an `int` goes through the template overload, which does
answer "too few" on the empty message and "too many" on a second word. -/
theorem execute_int_contrast (indet : Int) (f : Int → CommandResult) :
    execute indet [ParamTy.int] [] f = ⟨.TRY_NEXT, "error too few parameters"⟩ ∧
    execute indet [ParamTy.int] ['1', ' ', '2'] f
      = ⟨.TRY_NEXT, "error too many parameters"⟩ := by
  constructor
  · rfl
  · rfl

/-- A blank message passes the emptiness test of the template overload, is stripped to
the empty string, and `parseArgument<int>` reports success on it: the callback is called
with the indeterminate value of the unset `int`. -/
theorem execute_int_blank (indet : Int) (f : Int → CommandResult) :
    execute indet [ParamTy.int] [' '] f = f indet := by
  rfl

end Command

namespace audio

/-- What steps 4 to 6 can do: go round again with no packet held (the engine needed more
input or met a corrupt unit), or return a frame the engine decoded.  The source and the
recorded queue identifier are left alone. -/
theorem decodeStep_spec {σ : Type} (e : DecodeEngine σ) (rule : TimestampRule)
    (c : Config σ) :
    (∃ c1, decodeStep e rule c = .loop c1 ∧ c1.queue = c.queue ∧
        c1.decoder.hasPackets = false ∧ c1.decoder.lastQueueId = c.decoder.lastQueueId ∧
        ((e.decode c.codec c.decoder.tmpPacket.data).2 = .needMoreInput ∨
         (e.decode c.codec c.decoder.tmpPacket.data).2 = .corrupt)) ∨
    (∃ c1 s consumed pts samples size fr,
        decodeStep e rule c = .ret (.frame size fr) c1 ∧ c1.queue = c.queue ∧
        c1.decoder.hasPackets = c.decoder.hasPackets ∧
        c1.decoder.lastQueueId = c.decoder.lastQueueId ∧
        e.decode c.codec c.decoder.tmpPacket.data = (s, .decoded consumed pts samples size) ∧
        fr.nbSamples = samples ∧ c1.codec = s) := by
  unfold decodeStep
  rcases h : e.decode c.codec c.decoder.tmpPacket.data with ⟨s, _ | _ | ⟨consumed, pts, samples, size⟩⟩
  · left; exact ⟨_, rfl, rfl, rfl, rfl, Or.inl rfl⟩
  · left; exact ⟨_, rfl, rfl, rfl, rfl, Or.inr rfl⟩
  · right; exact ⟨_, s, consumed, pts, samples, size, _, rfl, rfl, rfl, rfl, rfl, rfl, rfl⟩

/-- The four ways steps 1 to 3 can go. -/
theorem pull_spec {σ : Type} (e : DecodeEngine σ) (c : Config σ) :
    (c.decoder.hasPackets = true ∧ pull e c = .holding c) ∨
    (c.decoder.hasPackets = false ∧ c.queue = [] ∧ pull e c = .closed) ∨
    (∃ rest c1, c.decoder.hasPackets = false ∧ c.queue = .flush :: rest ∧
        pull e c = .flushed c1 ∧ c1.queue = rest ∧ c1.decoder.hasPackets = false ∧
        c1.decoder.lastQueueId = c.decoder.lastQueueId ∧
        c1.decoder.nextPlayTime = c.decoder.initialPlayTime ∧
        c1.decoder.nextPlayTimeBase = c.decoder.initialPlayTimeBase ∧
        c1.decoder.initialPlayTime = c.decoder.initialPlayTime ∧
        c1.decoder.initialPlayTimeBase = c.decoder.initialPlayTimeBase) ∨
    (∃ p rest c1, c.decoder.hasPackets = false ∧ c.queue = .audio p :: rest ∧
        pull e c = .holding c1 ∧ c1.queue = rest ∧ c1.decoder.hasPackets = true ∧
        c1.decoder.lastQueueId = p.queueId) := by
  unfold pull
  cases hp : c.decoder.hasPackets with
  | true => left; simp
  | false =>
    right
    cases hq : c.queue with
    | nil => left; simp
    | cons q rest =>
      right
      cases q with
      | flush =>
        left
        exact ⟨rest, _, rfl, rfl, rfl, rfl, rfl, rfl, rfl, rfl, rfl, rfl⟩
      | audio p =>
        right
        exact ⟨p, rest, _, rfl, rfl, rfl, rfl, rfl, rfl⟩

theorem lastPulledId_append (id : Int) (a b : List QueueEntry) :
    lastPulledId id (a ++ b) = lastPulledId (lastPulledId id a) b := by
  induction a generalizing id with
  | nil => rfl
  | cons q rest ih =>
    cases q with
    | audio p => exact ih p.queueId
    | flush => exact ih id

theorem Tracks.refl {σ : Type} (c : Config σ) : Tracks c c :=
  ⟨[], rfl, rfl⟩

theorem Tracks.trans {σ : Type} {c c1 c2 : Config σ} (h1 : Tracks c c1) (h2 : Tracks c1 c2) :
    Tracks c c2 := by
  obtain ⟨p1, hq1, hi1⟩ := h1
  obtain ⟨p2, hq2, hi2⟩ := h2
  refine ⟨p1 ++ p2, ?_, ?_⟩
  · rw [hq1, hq2, List.append_assoc]
  · rw [hi2, hi1, lastPulledId_append]

/-- If nothing was taken from the source, the recorded identifier is the same. -/
theorem Tracks.same_queue {σ : Type} {c c1 : Config σ} (h : Tracks c c1)
    (hq : c1.queue = c.queue) : getLastQueueId c1.decoder = getLastQueueId c.decoder := by
  obtain ⟨pulled, hp, hi⟩ := h
  have hl := congrArg List.length hp
  rw [List.length_append, hq] at hl
  have : pulled = [] := List.length_eq_zero.mp (by omega)
  rw [hi, this]; rfl

/-- One iteration of the loop: it returns end of stream on a closed source with no packet
held; or it goes round again with a smaller budget; or it returns a frame that the engine
decoded from the packet held after steps 1 to 3.  In every case the recorded queue
identifier tracks the source. -/
theorem iteration_spec {σ : Type} (e : DecodeEngine σ) (rule : TimestampRule)
    (c : Config σ) :
    (iteration e rule c = .ret .endOfStream c ∧ c.queue = [] ∧
        c.decoder.hasPackets = false) ∨
    (∃ c1, iteration e rule c = .loop c1 ∧ budget c1 < budget c ∧ Tracks c c1) ∨
    (∃ c0 c1 s consumed pts samples size fr,
        pull e c = .holding c0 ∧ iteration e rule c = .ret (.frame size fr) c1 ∧
        e.decode c0.codec c0.decoder.tmpPacket.data
          = (s, .decoded consumed pts samples size) ∧
        fr.nbSamples = samples ∧ c1.codec = s ∧ Tracks c c1) := by
  unfold iteration
  rcases pull_spec e c with ⟨hh, hp⟩ | ⟨hh, hq, hp⟩ | ⟨rest, c1, hh, hq, hp, hq1, hh1, hi1, -⟩ |
    ⟨p, rest, c0, hh, hq, hp, hq0, hh0, hi0⟩
  · -- a packet is held
    rw [hp]
    rcases decodeStep_spec e rule c with ⟨c1, hd, hq1, hh1, hi1, -⟩ |
      ⟨c1, s, consumed, pts, samples, size, fr, hd, hq1, hh1, hi1, hdec, hfr, hs⟩
    · right; left
      refine ⟨c1, hd, ?_, [], by simp [hq1], by simp [getLastQueueId, lastPulledId, hi1]⟩
      simp [budget, hq1, hh1, hh]
    · right; right
      exact ⟨c, c1, s, consumed, pts, samples, size, fr, rfl, hd, hdec, hfr, hs,
        [], by simp [hq1], by simp [getLastQueueId, lastPulledId, hi1]⟩
  · -- the source is closed
    left
    rw [hp]
    exact ⟨rfl, hq, hh⟩
  · -- a flush marker
    right; left
    rw [hp]
    refine ⟨c1, rfl, ?_, [.flush], by simp [hq, hq1], by simp [getLastQueueId, lastPulledId, hi1]⟩
    simp [budget, hq, hq1, hh1, hh]
  · -- a real packet
    rw [hp]
    rcases decodeStep_spec e rule c0 with ⟨c1, hd, hq1, hh1, hi1, -⟩ |
      ⟨c1, s, consumed, pts, samples, size, fr, hd, hq1, hh1, hi1, hdec, hfr, hs⟩
    · right; left
      refine ⟨c1, hd, ?_, [.audio p], by simp [hq, hq1, hq0],
        by simp [getLastQueueId, lastPulledId, hi1, hi0]⟩
      simp [budget, hq, hq1, hq0, hh1, hh]
    · right; right
      exact ⟨c0, c1, s, consumed, pts, samples, size, fr, rfl, hd, hdec, hfr, hs,
        [.audio p], by simp [hq, hq1, hq0], by simp [getLastQueueId, lastPulledId, hi1, hi0]⟩

/-- Every iteration keeps the recorded queue identifier in step with the source. -/
theorem iteration_tracks {σ : Type} (e : DecodeEngine σ) (rule : TimestampRule)
    (c : Config σ) : Tracks c (iteration e rule c).config := by
  rcases iteration_spec e rule c with ⟨h, -, -⟩ | ⟨c1, h, -, ht⟩ |
    ⟨c0, c1, s, consumed, pts, samples, size, fr, -, h, -, -, -, ht⟩
  · rw [h]; exact Tracks.refl c
  · rw [h]; exact ht
  · rw [h]; exact ht

/-- So does any number of iterations. -/
theorem afterIterations_tracks {σ : Type} (e : DecodeEngine σ) (rule : TimestampRule)
    (n : Nat) (c : Config σ) : Tracks c (afterIterations e rule n c) := by
  induction n generalizing c with
  | zero => exact Tracks.refl c
  | succ n ih => exact (iteration_tracks e rule c).trans (ih _)

/-- With more fuel than the budget the loop returns: after some `n + 1` iterations, with
end of stream on a closed source, or with a frame the engine decoded in the last
iteration. -/
theorem fillFrameLoop_spec {σ : Type} (e : DecodeEngine σ) (rule : TimestampRule)
    (fuel : Nat) (c : Config σ) (h : budget c < fuel) :
    ∃ r c' n, fillFrameLoop e rule fuel c = some (r, c') ∧
      c' = afterIterations e rule (n + 1) c ∧
      ((r = .endOfStream ∧ c'.queue = [] ∧ c'.decoder.hasPackets = false) ∨
       (∃ c0 s consumed pts samples size fr,
          pull e (afterIterations e rule n c) = .holding c0 ∧
          e.decode c0.codec c0.decoder.tmpPacket.data
            = (s, .decoded consumed pts samples size) ∧
          r = .frame size fr ∧ fr.nbSamples = samples ∧ c'.codec = s)) := by
  induction fuel generalizing c with
  | zero => omega
  | succ fuel ih =>
    rcases iteration_spec e rule c with ⟨hi, hq, hh⟩ | ⟨c1, hi, hb, -⟩ |
      ⟨c0, c1, s, consumed, pts, samples, size, fr, hp, hi, hdec, hfr, hs, -⟩
    · refine ⟨.endOfStream, c, 0, ?_, ?_, Or.inl ⟨rfl, hq, hh⟩⟩
      · simp [fillFrameLoop, hi]
      · simp [afterIterations, hi, Step.config]
    · obtain ⟨r, c', n, hl, hc, hr⟩ := ih c1 (by omega)
      refine ⟨r, c', n + 1, ?_, ?_, ?_⟩
      · simp [fillFrameLoop, hi, hl]
      · rw [hc]
        show _ = afterIterations e rule (n + 1) (iteration e rule c).config
        rw [hi]; rfl
      · have hn : afterIterations e rule (n + 1) c = afterIterations e rule n c1 := by
          show afterIterations e rule n (iteration e rule c).config = _
          rw [hi]; rfl
        rw [hn]
        exact hr
    · refine ⟨.frame size fr, c1, 0, ?_, ?_, Or.inr ⟨c0, s, consumed, pts, samples, size, fr,
        hp, hdec, rfl, hfr, hs⟩⟩
      · simp [fillFrameLoop, hi]
      · simp [afterIterations, hi, Step.config]

/-- The fuel of `fillFrame` exceeds the budget. -/
theorem budget_lt_fuel {σ : Type} (c : Config σ) : budget c < 2 * c.queue.length + 2 := by
  unfold budget
  split <;> omega

/-- An answer "need more input" or "corrupt" sends steps 4 to 6 round the loop again. -/
theorem decodeStep_loops {σ : Type} (e : DecodeEngine σ) (rule : TimestampRule)
    (c : Config σ)
    (h : (e.decode c.codec c.decoder.tmpPacket.data).2 = .needMoreInput ∨
         (e.decode c.codec c.decoder.tmpPacket.data).2 = .corrupt) :
    ∃ c1, decodeStep e rule c = .loop c1 ∧ c1.decoder.hasPackets = false ∧
      c1.queue = c.queue := by
  rcases decodeStep_spec e rule c with ⟨c1, hd, hq1, hh1, -, -⟩ |
    ⟨c1, s, consumed, pts, samples, size, fr, -, -, -, -, hdec, -, -⟩
  · exact ⟨c1, hd, hh1, hq1⟩
  · rw [hdec] at h
    rcases h with h | h <;> cases h

/-- A call of `fillFrame` keeps the recorded queue identifier in step with the source. -/
theorem fillFrame_tracks {σ : Type} (e : DecodeEngine σ) (rule : TimestampRule)
    (c : Config σ) (r : FillResult) (c' : Config σ)
    (h : fillFrame e rule c = some (r, c')) : Tracks c c' := by
  obtain ⟨r0, c0, n, hl, hc, -⟩ :=
    fillFrameLoop_spec e rule (2 * c.queue.length + 2) c (budget_lt_fuel c)
  unfold fillFrame at h
  rw [hl] at h
  have hcc : c0 = c' := by
    have := Option.some.inj h
    exact congrArg Prod.snd this
  rw [← hcc, hc]
  exact afterIterations_tracks e rule (n + 1) c

/-- So does any number of calls. -/
theorem afterCalls_tracks {σ : Type} (e : DecodeEngine σ) (rule : TimestampRule)
    (n : Nat) (c : Config σ) : Tracks c (afterCalls e rule n c) := by
  induction n generalizing c with
  | zero => exact Tracks.refl c
  | succ n ih =>
    unfold afterCalls
    cases hf : fillFrame e rule c with
    | none => exact Tracks.refl c
    | some rc =>
      obtain ⟨r, c'⟩ := rc
      exact (fillFrame_tracks e rule c r c' hf).trans (ih c')

/-- The frame stamped after a flush, and the order of the stamps of two frames, depend on
the timestamp rule, which the specification leaves open.  Source: packet (timestamp 9),
flush marker, packet (timestamp 3); initial pair `(0, 1/48000)`.  Under `sampleRule` the
frames are stamped 0 and 0, under `engineRule` 9 and 3. -/
theorem stamps_depend_on_rule :
    ((fillFrame sampleEngine sampleRule
        (sampleConfig [.audio (samplePacket 1 9), .flush, .audio (samplePacket 2 3)])).map
        Prod.fst = some (.frame 4096 ⟨0, 1024⟩)) ∧
    ((fillFrame sampleEngine sampleRule (afterCalls sampleEngine sampleRule 1
        (sampleConfig [.audio (samplePacket 1 9), .flush, .audio (samplePacket 2 3)]))).map
        Prod.fst = some (.frame 4096 ⟨0, 1024⟩)) ∧
    ((fillFrame sampleEngine engineRule
        (sampleConfig [.audio (samplePacket 1 9), .flush, .audio (samplePacket 2 3)])).map
        Prod.fst = some (.frame 4096 ⟨9, 1024⟩)) ∧
    ((fillFrame sampleEngine engineRule (afterCalls sampleEngine engineRule 1
        (sampleConfig [.audio (samplePacket 1 9), .flush, .audio (samplePacket 2 3)]))).map
        Prod.fst = some (.frame 4096 ⟨3, 1024⟩)) := by
  decide

/-- C3: `getLastQueueId` is the queue identifier of the real packet pulled last.  Whatever
the engine, the timestamp rule and the state `c`: after any number of loop iterations,
after a call of `fillFrame` and after any number of calls, the entries taken from the
source so far are a front part `pulled` of the source of `c` and the recorded identifier
is that of the last real packet in `pulled` (`Tracks`); an iteration that takes nothing
from the source, such as one that emits a further frame of the held packet, leaves the
identifier as it is; and `getLastQueueId` only reads the field. -/
theorem getLastQueueId_last_pulled {σ : Type} (e : DecodeEngine σ) (rule : TimestampRule)
    (c : Config σ) :
    (∀ n, Tracks c (afterIterations e rule n c)) ∧
    (∀ r c', fillFrame e rule c = some (r, c') → Tracks c c') ∧
    (∀ n, Tracks c (afterCalls e rule n c)) ∧
    ((iteration e rule c).config.queue = c.queue →
      getLastQueueId (iteration e rule c).config.decoder = getLastQueueId c.decoder) ∧
    (∀ d : PacketToFrameDecoder, getLastQueueId d = d.lastQueueId) :=
  ⟨fun n => afterIterations_tracks e rule n c,
   fun r c' h => fillFrame_tracks e rule c r c' h,
   fun n => afterCalls_tracks e rule n c,
   fun hq => (iteration_tracks e rule c).same_queue hq,
   fun _ => rfl⟩

/-- C3 on packets with the identifiers 3, 3, 5: the identifier is 3 after the first and
after the second call, when the third packet is still in the source, and 5 after the
third call, which pulls it. -/
theorem getLastQueueId_3_3_5 :
    getLastQueueId (afterCalls sampleEngine sampleRule 1 (sampleConfig
      [.audio (samplePacket 3 1), .audio (samplePacket 3 1), .audio (samplePacket 5 1)])).decoder
      = 3 ∧
    getLastQueueId (afterCalls sampleEngine sampleRule 2 (sampleConfig
      [.audio (samplePacket 3 1), .audio (samplePacket 3 1), .audio (samplePacket 5 1)])).decoder
      = 3 ∧
    (afterCalls sampleEngine sampleRule 2 (sampleConfig
      [.audio (samplePacket 3 1), .audio (samplePacket 3 1), .audio (samplePacket 5 1)])).queue
      = [.audio (samplePacket 5 1)] ∧
    getLastQueueId (afterCalls sampleEngine sampleRule 3 (sampleConfig
      [.audio (samplePacket 3 1), .audio (samplePacket 3 1), .audio (samplePacket 5 1)])).decoder
      = 5 ∧
    Tracks
      (sampleConfig
        [.audio (samplePacket 3 1), .audio (samplePacket 3 1), .audio (samplePacket 5 1)])
      (afterCalls sampleEngine sampleRule 3 (sampleConfig
        [.audio (samplePacket 3 1), .audio (samplePacket 3 1), .audio (samplePacket 5 1)])) :=
  ⟨by decide, by decide, by decide, by decide,
   (getLastQueueId_last_pulled sampleEngine sampleRule _).2.2.1 3⟩

/-- C4: `fillFrame` returns, and only in two ways.  Whatever the engine, the timestamp
rule and the state `c`, the call ends after some `n + 1` iterations of the loop, either
with the end-of-stream sentinel, the source being closed and no packet held, or with the
size of a frame that the engine decoded in the last iteration.  An answer "need more
input" or "corrupt" never ends the call: it clears `hasPackets` and the loop goes round
again. -/
theorem fillFrame_returns_frame_or_end {σ : Type} (e : DecodeEngine σ)
    (rule : TimestampRule) (c : Config σ) :
    (∃ r c' n, fillFrame e rule c = some (r, c') ∧
      c' = afterIterations e rule (n + 1) c ∧
      ((r = .endOfStream ∧ c'.queue = [] ∧ c'.decoder.hasPackets = false) ∨
       (∃ c0 s consumed pts samples size fr,
          pull e (afterIterations e rule n c) = .holding c0 ∧
          e.decode c0.codec c0.decoder.tmpPacket.data
            = (s, .decoded consumed pts samples size) ∧
          r = .frame size fr ∧ fr.nbSamples = samples ∧ c'.codec = s))) ∧
    (∀ c0 : Config σ,
      ((e.decode c0.codec c0.decoder.tmpPacket.data).2 = .needMoreInput ∨
       (e.decode c0.codec c0.decoder.tmpPacket.data).2 = .corrupt) →
      ∃ c1, decodeStep e rule c0 = .loop c1 ∧ c1.decoder.hasPackets = false ∧
        c1.queue = c0.queue) :=
  ⟨fillFrameLoop_spec e rule (2 * c.queue.length + 2) c (budget_lt_fuel c),
   fun c0 h => decodeStep_loops e rule c0 h⟩

/-- C4 on a source that delivers a corrupt packet and then a good one: the first call
skips the corrupt packet and returns the frame of the good one; the second call drains
the engine, finds the source closed and returns end of stream. -/
theorem fillFrame_skips_corrupt_packet :
    (fillFrame sampleEngine sampleRule
        (sampleConfig [.audio (samplePacket 1 0), .audio (samplePacket 1 7)])).map Prod.fst
      = some (.frame 4096 ⟨0, 1024⟩) ∧
    (fillFrame sampleEngine sampleRule (afterCalls sampleEngine sampleRule 1
        (sampleConfig [.audio (samplePacket 1 0), .audio (samplePacket 1 7)]))).map Prod.fst
      = some .endOfStream ∧
    (∃ r c' n,
      fillFrame sampleEngine sampleRule
          (sampleConfig [.audio (samplePacket 1 0), .audio (samplePacket 1 7)])
        = some (r, c') ∧
      c' = afterIterations sampleEngine sampleRule (n + 1)
          (sampleConfig [.audio (samplePacket 1 0), .audio (samplePacket 1 7)])) := by
  refine ⟨by decide, by decide, ?_⟩
  obtain ⟨r, c', n, h1, h2, -⟩ := (fillFrame_returns_frame_or_end sampleEngine sampleRule
    (sampleConfig [.audio (samplePacket 1 0), .audio (samplePacket 1 7)])).1
  exact ⟨r, c', n, h1, h2⟩

end audio
